import Mathlib

/-!
# A verified model of the installer menu (`py_menu.py`)

This file gives a shallow embedding of the navigation/selection state machine
and the execution coordinator of the `py_menu.py` terminal launcher, and proves
properties of that embedding.

Modelling conventions:
* Python strings are Lean `String`s; the handful of Python string operations the
  program uses (`startswith`, `strip`, `lower`, `in`, `replace(pat, "")`,
  slicing off the last character) are defined below over the character data so
  that every definition evaluates by kernel reduction.
* `sorted(...)` / `list.sort(key=...)` are modelled by a stable insertion sort
  parameterised by a boolean "less or equal" test.
* The Python `set` of selected indices is modelled as a duplicate-free list.
* Reading a key with `curses` is modelled by feeding the raw key code (a `Nat`)
  to the dispatch function `handle_key`; `none` means the loop breaks (quit).
* Launching an external process is modelled by an oracle `String → Outcome`
  giving the outcome of running a given script path.
-/

/-- Lexicographic "less or equal" on character data, comparing code points:
this is how Python compares strings when sorting. -/
def charsLe : List Char → List Char → Bool
  | [], _ => true
  | _ :: _, [] => false
  | a :: as, b :: bs =>
    if a.toNat < b.toNat then true
    else if b.toNat < a.toNat then false
    else charsLe as bs

/-- String comparison used by `sorted` on file names and category names. -/
def strLe (a b : String) : Bool := charsLe a.data b.data

/-- Insert an element into a list, before the first element it compares
less-or-equal to (the insertion step of a stable insertion sort). -/
def insertLe {α : Type} (le : α → α → Bool) (a : α) : List α → List α
  | [] => [a]
  | b :: l => if le a b then a :: b :: l else b :: insertLe le a l

/-- Stable sort modelling Python's `sorted` / `list.sort`. -/
def sortBy {α : Type} (le : α → α → Bool) : List α → List α
  | [] => []
  | a :: l => insertLe le a (sortBy le l)

/-- Python `s.startswith(pat)`. -/
def pyStartsWith (pat s : String) : Bool := pat.data.isPrefixOf s.data

/-- Python `s.endswith(suffix)`. -/
def pyEndsWith (suffix s : String) : Bool := suffix.data.isSuffixOf s.data

/-- Python `s.strip()`: drop whitespace from both ends. -/
def pyStrip (s : String) : String :=
  ⟨((s.data.dropWhile Char.isWhitespace).reverse.dropWhile Char.isWhitespace).reverse⟩

/-- Python `s.lower()`. -/
def pyLower (s : String) : String := ⟨s.data.map Char.toLower⟩

/-- Substring test on character data (Python `needle in hay` for strings). -/
def containsSub (needle : List Char) : List Char → Bool
  | [] => needle.isEmpty
  | c :: rest => needle.isPrefixOf (c :: rest) || containsSub needle rest

/-- Python `needle in hay` on strings. -/
def pyIn (needle hay : String) : Bool := containsSub needle.data hay.data

/-- Worker for `removeAll`, structurally recursive on a fuel argument so that
it reduces in the kernel.  When the pattern (non-empty) occurs at the head, the
occurrence is dropped and scanning continues after it; otherwise the head
character is kept. -/
def removeAllAux (pat : List Char) : Nat → List Char → List Char
  | _, [] => []
  | 0, l => l
  | fuel + 1, c :: rest =>
    if pat.isPrefixOf (c :: rest) && !pat.isEmpty then
      removeAllAux pat fuel ((c :: rest).drop pat.length)
    else
      c :: removeAllAux pat fuel rest

/-- Remove every (leftmost-first, non-overlapping) occurrence of `pat`. -/
def removeAll (pat l : List Char) : List Char := removeAllAux pat l.length l

/-- Python `s.replace(pat, "")`: delete all occurrences of `pat` in `s`. -/
def pyReplaceDel (s pat : String) : String := ⟨removeAll pat.data s.data⟩

/-- One installable script entry (see the data model in the source: a dict with
`name`, `description`, `category`, `path`). -/
structure Entry where
  name : String
  description : String
  category : String
  path : String
deriving DecidableEq

instance : Inhabited Entry := ⟨⟨"", "", "", ""⟩⟩

/-- The metadata scan inside `discover_installers` (src/py_menu.py lines
50-58): walk the lines of the script, overwriting `description` / `category`
whenever a directive line is seen, and stop at the first line that is neither
blank nor a comment. -/
def parse_header : List String → String → String → String × String
  | [], description, category => (description, category)
  | line :: rest, description, category =>
    if pyStartsWith "# Description:" line then
      parse_header rest (pyStrip (pyReplaceDel line "# Description:")) category
    else if pyStartsWith "# Category:" line then
      parse_header rest description (pyStrip (pyReplaceDel line "# Category:"))
    else if pyStrip line ≠ "" ∧ ¬ pyStartsWith "#" line then
      (description, category)
    else
      parse_header rest description category

/-- `Path(...).stem` for a file name ending in `.sh`: the name without the
trailing three characters. -/
def stemOf (fname : String) : String := ⟨fname.data.take (fname.data.length - 3)⟩

/-- Whether a file name matches the glob `setup_*.sh`. -/
def globMatch (fname : String) : Bool :=
  pyStartsWith "setup_" fname && pyEndsWith ".sh" fname

/-- The two reserved stems skipped by discovery (src/py_menu.py line 42). -/
def reservedStems : List String := ["setup_gum", "setup_new_installer"]

/-- The loop body of `discover_installers` for one script file, given its name
and its lines (src/py_menu.py lines 41-68).  The directory prefix of paths is
left implicit, so an entry's `path` is its file name. -/
def mk_installer (fname : String) (lines : List String) : Entry :=
  let meta := parse_header lines "No description" "Utilities"
  { name := pyReplaceDel (stemOf fname) "setup_",
    description := meta.1,
    category := meta.2,
    path := fname }

/-- `discover_installers` (src/py_menu.py lines 32-70): the directory is a list
of (file name, lines) pairs; glob-matching files are sorted by name, reserved
stems are skipped, and each remaining file yields one entry. -/
def discover_installers (files : List (String × List String)) : List Entry :=
  ((sortBy (fun f g => strLe f.1 g.1) (files.filter (fun f => globMatch f.1))).filter
      (fun f => !(reservedStems.contains (stemOf f.1)))).map
    (fun f => mk_installer f.1 f.2)

/-- The insertion-ordered list of category keys, as the dict in
`organize_by_category` accumulates them. -/
def categoryKeys (installers : List Entry) : List String :=
  installers.foldl
    (fun acc e => if e.category ∈ acc then acc else acc ++ [e.category]) []

/-- The categories dict of `organize_by_category` after the per-bucket sort:
keys in insertion order, each key paired with its installers (in discovery
order) sorted by entry name. -/
def categoryPairs (installers : List Entry) : List (String × List Entry) :=
  (categoryKeys installers).map
    (fun c => (c, sortBy (fun a b => strLe a.name b.name)
                    (installers.filter (fun e => e.category == c))))

/-- `organize_by_category` (src/py_menu.py lines 72-88): group installers by
category in insertion order, sort each bucket by entry name, then sort the
(category, entries) pairs by category name. -/
def organize_by_category (installers : List Entry) : List (String × List Entry) :=
  sortBy (fun p q => strLe p.1 q.1) (categoryPairs installers)

/-- The four view modes of the session (src/py_menu.py line 22). -/
inductive View where
  | main
  | category
  | search
  | multiselect
deriving DecidableEq

/-- One row of the current display list: either a category row (shown in the
main view, carrying its item count) or an installer row. -/
inductive Item where
  | categoryRow (name : String) (count : Nat)
  | installerRow (e : Entry)
deriving DecidableEq

instance : Inhabited Item := ⟨Item.installerRow default⟩

/-- The mutable session state of `InstallerMenu` (src/py_menu.py lines 16-30).
`selected_items` models the Python set of indices as a duplicate-free list. -/
structure MenuState where
  installers : List Entry
  categories : List (String × List Entry)
  current_view : View
  selected : Nat
  offset : Nat
  search_term : String
  filtered_items : List Entry
  current_category : Option String
  multiselect_mode : Bool
  selected_items : List Nat
  multiselect_items : List Entry
deriving DecidableEq

/-- Truthiness of the `current_category` field: Python `if self.current_category:`
is false both for `None` and for the empty string. -/
def catTruthy : Option String → Bool
  | none => false
  | some c => c != ""

/-- Dictionary lookup `self.categories[key]` (the categories dict is modelled
as an association list). -/
def catGet (cats : List (String × List Entry)) (key : String) : List Entry :=
  match cats.find? (fun p => p.1 == key) with
  | some p => p.2
  | none => []

/-- Dictionary membership `key in self.categories`. -/
def catMem (cats : List (String × List Entry)) (key : String) : Bool :=
  (cats.find? (fun p => p.1 == key)).isSome

/-- `self.categories.get(key, [])` where the key may be `None`. -/
def catGetOpt (cats : List (String × List Entry)) : Option String → List Entry
  | none => []
  | some c => catGet cats c

/-- `get_current_items` (src/py_menu.py lines 90-108): the display list the
current view denotes. -/
def get_current_items (s : MenuState) : List Item :=
  match s.current_view with
  | View.search => s.filtered_items.map Item.installerRow
  | View.category => (catGetOpt s.categories s.current_category).map Item.installerRow
  | View.multiselect => s.multiselect_items.map Item.installerRow
  | View.main => s.categories.map (fun p => Item.categoryRow p.1 p.2.length)

/-- `filter_items` (src/py_menu.py lines 110-134): an empty term clears the
result list and reverts the view; otherwise filter the scope (the open
category's entries if a category is active and known, else all installers) by
case-insensitive substring match on name or description. -/
def filter_items (s : MenuState) : MenuState :=
  if s.search_term = "" then
    { s with filtered_items := [],
             current_view := if s.current_category.isNone then View.main else View.category }
  else
    let items_to_search :=
      if catTruthy s.current_category &&
          catMem s.categories (s.current_category.getD "") then
        catGet s.categories (s.current_category.getD "")
      else s.installers
    { s with current_view := View.search,
             filtered_items := items_to_search.filter
               (fun e => pyIn (pyLower s.search_term) (pyLower e.name) ||
                         pyIn (pyLower s.search_term) (pyLower e.description)) }

/-- `enter_multiselect_mode` (src/py_menu.py lines 136-154).  The source sets
`current_view` to multiselect before testing whether it equals search, so the
first branch below is kept verbatim but can never be taken. -/
def enter_multiselect_mode (s : MenuState) : MenuState :=
  let s1 : MenuState :=
    { s with multiselect_mode := true,
             current_view := View.multiselect,
             selected_items := [] }
  let s2 : MenuState :=
    if s1.search_term ≠ "" ∧ s1.current_view = View.search then
      { s1 with multiselect_items := s1.filtered_items }
    else if catTruthy s1.current_category then
      { s1 with multiselect_items := catGetOpt s1.categories s1.current_category }
    else
      { s1 with multiselect_items := s1.categories.foldl (fun acc p => acc ++ p.2) [] }
  { s2 with selected := 0, offset := 0 }

/-- `toggle_selection` (src/py_menu.py lines 156-161): add the index to the
selection set if absent, remove it if present.  There is no range check. -/
def toggle_selection (s : MenuState) (idx : Nat) : MenuState :=
  if idx ∈ s.selected_items then
    { s with selected_items := s.selected_items.erase idx }
  else
    { s with selected_items := idx :: s.selected_items }

/-- `select_all_items` (src/py_menu.py lines 393-397). -/
def select_all_items (s : MenuState) : MenuState :=
  if s.current_view = View.multiselect then
    { s with selected_items := List.range (get_current_items s).length }
  else s

/-- The path collection inside the Enter handler (src/py_menu.py lines
430-433): iterate the selection set (set iteration is modelled in ascending
index order), keep in-range indices, and read off the paths. -/
def collect_selected_paths (s : MenuState) : List String :=
  ((sortBy (fun a b => decide (a ≤ b)) s.selected_items).filter
      (fun idx => decide (idx < s.multiselect_items.length))).map
    (fun idx => (s.multiselect_items.getD idx default).path)

/-- `navigate_back` (src/py_menu.py lines 377-391). -/
def navigate_back (s : MenuState) : MenuState :=
  if s.current_view = View.search then
    { s with search_term := "",
             current_view := if s.current_category.isNone then View.main else View.category,
             filtered_items := [] }
  else if s.current_view = View.category then
    { s with current_view := View.main, current_category := none }
  else if s.current_view = View.multiselect then
    { s with current_view := if s.current_category.isNone then View.main else View.category,
             multiselect_mode := false,
             selected_items := [],
             multiselect_items := [] }
  else s

/-- The header row count above the item area in `draw_menu`: 2 in the main
view, 4 otherwise (src/py_menu.py lines 184-198). -/
def searchRow (s : MenuState) : Nat :=
  if s.current_view = View.main then 2 else 4

/-- The state mutation `draw_menu` performs (src/py_menu.py lines 220-236):
re-clamp `selected` and `offset` against the current item list and move the
viewport to keep the cursor visible.  When no item rows fit on the screen the
method returns before clamping. -/
def draw_menu (s : MenuState) (height : Nat) : MenuState :=
  if height - (searchRow s + 7) = 0 then s
  else
    let max_visible := height - (searchRow s + 7)
    let n := (get_current_items s).length
    let sel := if s.selected ≥ n then n - 1 else s.selected
    let off0 := if s.offset ≥ n then n - 1 else s.offset
    let off :=
      if sel < off0 then sel
      else if sel ≥ off0 + max_visible then sel - max_visible + 1
      else off0
    { s with selected := sel, offset := off }

/-- The Enter branch of the key loop (src/py_menu.py lines 421-454).  Running
an installer does not change the menu state; a batch run resets the state
afterwards. -/
def handle_enter (s : MenuState) : MenuState :=
  let items := get_current_items s
  if items ≠ [] ∧ s.selected < items.length then
    if s.current_view = View.multiselect then
      if s.selected_items ≠ [] then
        if collect_selected_paths s ≠ [] then
          { s with current_view := if s.current_category.isNone then View.main else View.category,
                   multiselect_mode := false,
                   selected_items := [],
                   multiselect_items := [],
                   selected := 0,
                   offset := 0 }
        else s
      else s
    else
      match items.getD s.selected default with
      | Item.categoryRow name _ =>
          if s.current_view = View.main then
            { s with current_view := View.category,
                     current_category := some name,
                     selected := 0,
                     offset := 0 }
          else s
      | Item.installerRow _ => s
  else s

def KEY_DOWN : Nat := 258
def KEY_UP : Nat := 259
def KEY_LEFT : Nat := 260
def KEY_BACKSPACE : Nat := 263
def KEY_ENTER : Nat := 343

/-- One iteration of the key dispatch in `run` (src/py_menu.py lines 412-491),
fed with the raw key code.  `none` means the session ends (the q branch breaks
the loop). -/
def handle_key (s : MenuState) (key : Nat) : Option MenuState :=
  if key = 113 ∨ key = 81 then
    none
  else if key = KEY_DOWN then
    some (if get_current_items s ≠ [] then
            { s with selected := min (s.selected + 1) ((get_current_items s).length - 1) }
          else s)
  else if key = KEY_UP then
    some (if get_current_items s ≠ [] then { s with selected := s.selected - 1 } else s)
  else if key = 10 ∨ key = KEY_ENTER then
    some (handle_enter s)
  else if key = 32 then
    some (if s.current_view = View.multiselect then toggle_selection s s.selected else s)
  else if key = 97 ∨ key = 65 then
    some (if s.current_view = View.multiselect then select_all_items s else s)
  else if key = 109 ∨ key = 77 then
    some (if s.current_view = View.category ∨ s.current_view = View.search ∨
             (s.current_view = View.main ∧ s.search_term = "") then
            enter_multiselect_mode s
          else s)
  else if key = KEY_LEFT ∨ key = 104 ∨ key = 72 then
    some { navigate_back s with selected := 0, offset := 0 }
  else if key = 47 then
    some (filter_items { s with search_term := "" })
  else if key = KEY_BACKSPACE ∨ key = 127 ∨ key = 8 then
    some (if s.search_term ≠ "" then
            filter_items { s with search_term := ⟨s.search_term.data.dropLast⟩ }
          else s)
  else if key = 27 then
    some (if s.current_view = View.search then
            { s with search_term := "",
                     current_view := if s.current_category.isNone then View.main else View.category,
                     filtered_items := [] }
          else { navigate_back s with selected := 0, offset := 0 })
  else if 32 ≤ key ∧ key ≤ 126 then
    some (filter_items { s with search_term := s.search_term.push (Char.ofNat key) })
  else
    some s

/-- Outcome of running one external script (src/py_menu.py lines 350-359):
zero exit, non-zero exit, or a keyboard interruption. -/
inductive Outcome where
  | success
  | failure (code : Nat)
  | interrupted
deriving DecidableEq

def Outcome.isSuccess : Outcome → Bool
  | Outcome.success => true
  | _ => false

def Outcome.isFailure : Outcome → Bool
  | Outcome.failure _ => true
  | _ => false

def Outcome.isInterrupted : Outcome → Bool
  | Outcome.interrupted => true
  | _ => false

/-- The summary printed at the end of a batch run (src/py_menu.py lines
362-365). -/
structure BatchSummary where
  succeeded : Nat
  failed : Nat
  total : Nat
deriving DecidableEq

/-- The counting loop of `run_batch_installers` (src/py_menu.py lines
344-359): returns the success and failure counters together with the trace of
paths actually handed to the process primitive, in order.  An interruption
stops the loop after the interrupted invocation. -/
def batch_loop (exec : String → Outcome) : List String → Nat × Nat × List String
  | [] => (0, 0, [])
  | p :: rest =>
    match exec p with
    | Outcome.success =>
        let r := batch_loop exec rest
        (r.1 + 1, r.2.1, p :: r.2.2)
    | Outcome.failure _ =>
        let r := batch_loop exec rest
        (r.1, r.2.1 + 1, p :: r.2.2)
    | Outcome.interrupted => (0, 0, [p])

/-- `run_batch_installers` (src/py_menu.py lines 328-375): run the queue,
stopping at an interruption, and report the printed summary together with the
trace of invoked paths.  An empty queue returns immediately. -/
def run_batch_installers (exec : String → Outcome) (paths : List String) :
    BatchSummary × List String :=
  if paths = [] then ({ succeeded := 0, failed := 0, total := 0 }, [])
  else
    let r := batch_loop exec paths
    ({ succeeded := r.1, failed := r.2.1, total := paths.length }, r.2.2)

/-! ## Fixtures

A small concrete catalog used by witnesses and counterexamples: two categories,
Dev with entries a and b, Net with entry c (the scenario of the spec). -/

def entryA : Entry :=
  { name := "a", description := "No description", category := "Dev", path := "setup_a.sh" }

def entryB : Entry :=
  { name := "b", description := "No description", category := "Dev", path := "setup_b.sh" }

def entryC : Entry :=
  { name := "c", description := "No description", category := "Net", path := "setup_c.sh" }

def demoCategories : List (String × List Entry) :=
  [("Dev", [entryA, entryB]), ("Net", [entryC])]

/-- The state at session start over the demo catalog. -/
def initState : MenuState :=
  { installers := [entryA, entryB, entryC],
    categories := demoCategories,
    current_view := View.main,
    selected := 0,
    offset := 0,
    search_term := "",
    filtered_items := [],
    current_category := none,
    multiselect_mode := false,
    selected_items := [],
    multiselect_items := [] }

/-- The state after opening the Dev category. -/
def devState : MenuState :=
  { initState with current_view := View.category, current_category := some "Dev" }

/-- The state after typing "a" inside the Dev category: the search view shows
exactly the one matching entry. -/
def devSearchState : MenuState :=
  { initState with current_view := View.search,
                   current_category := some "Dev",
                   search_term := "a",
                   filtered_items := [entryA] }

/-- A multiselect state over the Net category (one candidate). -/
def netMultiState : MenuState :=
  { initState with current_view := View.multiselect,
                   current_category := some "Net",
                   multiselect_mode := true,
                   selected_items := [],
                   multiselect_items := [entryC] }

/-- The printable ASCII codes that earlier branches of the key dispatch consume
before the character-input branch can see them:
q Q space a A m M h H and the slash. -/
def reservedKeys : List Nat := [113, 81, 32, 97, 65, 109, 77, 104, 72, 47]

/-- The leading block of a script that the header scan can reach: the longest
prefix of lines that are comments or blank. -/
def headerBlock (lines : List String) : List String :=
  lines.takeWhile (fun line => pyStartsWith "#" line || pyStrip line == "")

/-- The value carried by the last directive line (for the given marker) within
the scanned header region, if any. -/
def lastDirective (marker : String) : List String → Option String
  | [] => none
  | line :: rest =>
    if pyStartsWith marker line then
      (lastDirective marker rest).orElse
        (fun _ => some (pyStrip (pyReplaceDel line marker)))
    else if pyStrip line ≠ "" ∧ ¬ pyStartsWith "#" line then none
    else lastDirective marker rest

/-- Modelled from the spec: the value carried by the first directive line (for
the given marker) within the scanned header region ("first occurrence wins").
This is the comparison point for the directive-repetition claim; the source
itself overwrites on every match. -/
def firstDirective (marker : String) : List String → Option String
  | [] => none
  | line :: rest =>
    if pyStartsWith marker line then some (pyStrip (pyReplaceDel line marker))
    else if pyStrip line ≠ "" ∧ ¬ pyStartsWith "#" line then none
    else firstDirective marker rest

/-- Modelled from the spec: the entry name as the spec words it, "the file stem
with the fixed prefix 'setup_' removed" (one leading occurrence).  This is the
comparison point for the name-derivation claim; the source uses
`str.replace`, which removes every occurrence. -/
def specStripPrefix (stem : String) : String :=
  if pyStartsWith "setup_" stem then ⟨stem.data.drop 6⟩ else stem

/-- A concrete execution oracle for batch witnesses: `setup_a.sh` exits zero,
`setup_b.sh` is interrupted, everything else exits non-zero. -/
def execDemo : String → Outcome := fun p =>
  if p = "setup_a.sh" then Outcome.success
  else if p = "setup_b.sh" then Outcome.interrupted
  else Outcome.failure 1

/-- A small directory listing, used to witness order independence. -/
def demoFiles : List (String × List String) :=
  [("setup_b.sh", ["# Category: Dev"]),
   ("setup_c.sh", ["# Category: Net"]),
   ("setup_a.sh", ["# Category: Dev"])]

/-- The same directory listing in a different iteration order. -/
def demoFilesAlt : List (String × List String) :=
  [("setup_a.sh", ["# Category: Dev"]),
   ("setup_b.sh", ["# Category: Dev"]),
   ("setup_c.sh", ["# Category: Net"])]

/-! ## Helper lemmas about the sorting and string primitives -/

theorem insertLe_perm {α : Type} (le : α → α → Bool) (a : α) (l : List α) :
    (insertLe le a l).Perm (a :: l) := by
  induction l with
  | nil => simp [insertLe]
  | cons b t ih =>
    simp only [insertLe]
    split
    · exact List.Perm.refl _
    · exact (ih.cons b).trans (List.Perm.swap a b t)

theorem sortBy_perm {α : Type} (le : α → α → Bool) (l : List α) :
    (sortBy le l).Perm l := by
  induction l with
  | nil => simp [sortBy]
  | cons a t ih => exact (insertLe_perm le a (sortBy le t)).trans (ih.cons a)

theorem pairwise_insertLe {α : Type} {le : α → α → Bool}
    (htrans : ∀ a b c, le a b = true → le b c = true → le a c = true)
    (htotal : ∀ a b, le a b = true ∨ le b a = true)
    (a : α) (l : List α) (h : l.Pairwise (fun x y => le x y = true)) :
    (insertLe le a l).Pairwise (fun x y => le x y = true) := by
  induction l with
  | nil => simp [insertLe]
  | cons b t ih =>
    rw [List.pairwise_cons] at h
    obtain ⟨hb, ht⟩ := h
    simp only [insertLe]
    split
    · next hab =>
      rw [List.pairwise_cons]
      refine ⟨?_, ?_⟩
      · intro x hx
        rcases List.mem_cons.mp hx with rfl | hx
        · exact hab
        · exact htrans a b x hab (hb x hx)
      · rw [List.pairwise_cons]
        exact ⟨hb, ht⟩
    · next hab =>
      have hba : le b a = true := by
        rcases htotal a b with h | h
        · exact absurd h hab
        · exact h
      rw [List.pairwise_cons]
      refine ⟨?_, ih ht⟩
      intro x hx
      rcases List.mem_cons.mp ((insertLe_perm le a t).mem_iff.mp hx) with rfl | hx
      · exact hba
      · exact hb x hx

theorem sortBy_pairwise {α : Type} (le : α → α → Bool)
    (htrans : ∀ a b c, le a b = true → le b c = true → le a c = true)
    (htotal : ∀ a b, le a b = true ∨ le b a = true)
    (l : List α) :
    (sortBy le l).Pairwise (fun x y => le x y = true) := by
  induction l with
  | nil => simp [sortBy]
  | cons a t ih => exact pairwise_insertLe htrans htotal a (sortBy le t) ih

theorem charsLe_cons_iff (x y : Char) (xs ys : List Char) :
    charsLe (x :: xs) (y :: ys) = true ↔
      x.toNat < y.toNat ∨ (x.toNat = y.toNat ∧ charsLe xs ys = true) := by
  simp only [charsLe]
  split_ifs with h1 h2
  · simp [h1]
  · simp only [Bool.false_eq_true, false_iff]
    rintro (h | ⟨h, -⟩) <;> omega
  · have hxy : x.toNat = y.toNat := by omega
    simp [hxy]

theorem charsLe_trans (a b c : List Char) (h1 : charsLe a b = true)
    (h2 : charsLe b c = true) : charsLe a c = true := by
  induction a generalizing b c with
  | nil => simp [charsLe]
  | cons x xs ih =>
    cases b with
    | nil => simp [charsLe] at h1
    | cons y ys =>
      cases c with
      | nil => simp [charsLe] at h2
      | cons z zs =>
        rw [charsLe_cons_iff] at h1 h2 ⊢
        rcases h1 with h1 | ⟨e1, r1⟩
        · rcases h2 with h2 | ⟨e2, r2⟩
          · exact Or.inl (by omega)
          · exact Or.inl (by omega)
        · rcases h2 with h2 | ⟨e2, r2⟩
          · exact Or.inl (by omega)
          · exact Or.inr ⟨by omega, ih ys zs r1 r2⟩

theorem charsLe_total (a b : List Char) : charsLe a b = true ∨ charsLe b a = true := by
  induction a generalizing b with
  | nil => exact Or.inl (by simp [charsLe])
  | cons x xs ih =>
    cases b with
    | nil => exact Or.inr (by simp [charsLe])
    | cons y ys =>
      rcases Nat.lt_trichotomy x.toNat y.toNat with h | h | h
      · exact Or.inl ((charsLe_cons_iff x y xs ys).mpr (Or.inl h))
      · rcases ih ys with r | r
        · exact Or.inl ((charsLe_cons_iff x y xs ys).mpr (Or.inr ⟨h, r⟩))
        · exact Or.inr ((charsLe_cons_iff y x ys xs).mpr (Or.inr ⟨h.symm, r⟩))
      · exact Or.inr ((charsLe_cons_iff y x ys xs).mpr (Or.inl h))

theorem charsLe_antisymm (a b : List Char) (h1 : charsLe a b = true)
    (h2 : charsLe b a = true) : a = b := by
  induction a generalizing b with
  | nil =>
    cases b with
    | nil => rfl
    | cons y ys => simp [charsLe] at h2
  | cons x xs ih =>
    cases b with
    | nil => simp [charsLe] at h1
    | cons y ys =>
      rw [charsLe_cons_iff] at h1 h2
      have hxy : x.toNat = y.toNat := by
        rcases h1 with h1 | ⟨e1, -⟩ <;> rcases h2 with h2 | ⟨e2, -⟩ <;> omega
      have hx : x = y := Char.ext (UInt32.ext hxy)
      have hrec : charsLe xs ys = true := by
        rcases h1 with h1 | ⟨-, r⟩
        · omega
        · exact r
      have hrec2 : charsLe ys xs = true := by
        rcases h2 with h2 | ⟨-, r⟩
        · omega
        · exact r
      rw [hx, ih ys hrec hrec2]

/-! ## Helper lemmas about the key dispatch -/

theorem filter_items_of_empty (s : MenuState) (h : s.search_term = "") :
    filter_items s =
      { s with filtered_items := [],
               current_view := if s.current_category.isNone then View.main
                               else View.category } := by
  rw [filter_items, if_pos h]

theorem filter_items_search_term (s : MenuState) :
    (filter_items s).search_term = s.search_term := by
  rw [filter_items]
  split_ifs <;> rfl

theorem filter_items_view_of_ne (s : MenuState) (h : ¬ s.search_term = "") :
    (filter_items s).current_view = View.search := by
  rw [filter_items, if_neg h]

theorem string_push_ne_empty (s : String) (c : Char) : s.push c ≠ "" := by
  intro h
  have hd : (s.push c).data = ("" : String).data := by rw [h]
  simp [String.push] at hd

theorem handle_key_quit (s : MenuState) : handle_key s 113 = none := rfl

theorem handle_key_quit_upper (s : MenuState) : handle_key s 81 = none := rfl

theorem handle_key_up_eq (s : MenuState) :
    handle_key s 259 =
      some (if get_current_items s ≠ [] then { s with selected := s.selected - 1 }
            else s) := by
  simp [handle_key, KEY_DOWN, KEY_UP]

theorem handle_key_down_eq (s : MenuState) :
    handle_key s 258 =
      some (if get_current_items s ≠ [] then
              { s with selected := min (s.selected + 1) ((get_current_items s).length - 1) }
            else s) := by
  simp [handle_key, KEY_DOWN]

theorem handle_key_slash_eq (s : MenuState) :
    handle_key s 47 = some (filter_items { s with search_term := "" }) := by
  simp [handle_key, KEY_DOWN, KEY_UP, KEY_LEFT, KEY_BACKSPACE, KEY_ENTER]

theorem handle_key_backspace_ne (s : MenuState) (h : ¬ s.search_term = "") :
    handle_key s 263 =
      some (filter_items { s with search_term := ⟨s.search_term.data.dropLast⟩ }) := by
  simp [handle_key, KEY_DOWN, KEY_UP, KEY_LEFT, KEY_BACKSPACE, KEY_ENTER, h]

/-! ## C4: the redraw clamps the cursor and the viewport -/

/-- C4: after a redraw (whenever at least one item row fits on the screen),
`selected` and `offset` lie within `[0, max 0 (len(currentItems)-1)]` for the
list the current view denotes, and
`offset ≤ selected ≤ offset + visibleRows - 1`; an out-of-range cursor is
silently re-clamped, never an error. -/
theorem draw_menu_clamps (s : MenuState) (height : Nat)
    (h : searchRow s + 8 ≤ height) :
    (draw_menu s height).selected ≤ (get_current_items s).length - 1 ∧
    (draw_menu s height).offset ≤ (get_current_items s).length - 1 ∧
    (draw_menu s height).offset ≤ (draw_menu s height).selected ∧
    (draw_menu s height).selected + 1 ≤
      (draw_menu s height).offset + (height - (searchRow s + 7)) := by
  have hmv : ¬ (height - (searchRow s + 7) = 0) := by omega
  rw [draw_menu, if_neg hmv]
  simp only []
  split_ifs <;> refine ⟨?_, ?_, ?_, ?_⟩ <;> omega

/-- Witness for C4 at a concrete state and screen height. -/
theorem draw_menu_clamps_witness :
    searchRow initState + 8 ≤ 20 ∧
    ((draw_menu initState 20).selected ≤ (get_current_items initState).length - 1 ∧
     (draw_menu initState 20).offset ≤ (get_current_items initState).length - 1 ∧
     (draw_menu initState 20).offset ≤ (draw_menu initState 20).selected ∧
     (draw_menu initState 20).selected + 1 ≤
       (draw_menu initState 20).offset + (20 - (searchRow initState + 7))) :=
  ⟨by decide, draw_menu_clamps initState 20 (by decide)⟩

/-! ## C10: Escape and Back coincide outside the search view -/

/-- C10: in the Category and MultiSelect views, Escape (27) performs exactly
the same transition as Back (Left arrow, h, H): the same back-navigation step
followed by resetting `selected` and `offset` to 0. -/
theorem escape_equals_back (s : MenuState)
    (h : s.current_view = View.category ∨ s.current_view = View.multiselect) :
    handle_key s 27 = handle_key s 260 ∧
    handle_key s 27 = handle_key s 104 ∧
    handle_key s 27 = handle_key s 72 ∧
    handle_key s 27 = some { navigate_back s with selected := 0, offset := 0 } := by
  have hv : ¬ s.current_view = View.search := by
    rcases h with h | h <;> simp [h]
  refine ⟨?_, ?_, ?_, ?_⟩ <;>
    simp [handle_key, KEY_DOWN, KEY_UP, KEY_LEFT, KEY_BACKSPACE, KEY_ENTER, hv]

/-- Witness for C10 at the open Dev category. -/
theorem escape_equals_back_witness :
    (devState.current_view = View.category ∨ devState.current_view = View.multiselect) ∧
    (handle_key devState 27 = handle_key devState 260 ∧
     handle_key devState 27 = handle_key devState 104 ∧
     handle_key devState 27 = handle_key devState 72 ∧
     handle_key devState 27 = some { navigate_back devState with selected := 0, offset := 0 }) :=
  ⟨Or.inl rfl, escape_equals_back devState (Or.inl rfl)⟩

/-! ## C7: an empty search term reverts the view with an empty result list -/

/-- C7: when the search term becomes empty, by backspacing the last character
away or by starting a search with no characters typed, the result list is
empty and the view reverts to the pre-search view (Category when a category is
open, Main otherwise) - never the Search view showing all items. -/
theorem empty_term_reverts (s : MenuState) (h : s.search_term.length = 1) :
    (∃ s1, handle_key s 263 = some s1 ∧ s1.search_term = "" ∧
       s1.filtered_items = [] ∧
       s1.current_view = (if s.current_category.isNone then View.main else View.category)) ∧
    (∃ s2, handle_key s 47 = some s2 ∧ s2.search_term = "" ∧
       s2.filtered_items = [] ∧
       s2.current_view = (if s.current_category.isNone then View.main else View.category)) := by
  have hne : ¬ s.search_term = "" := by
    intro he
    rw [he] at h
    exact absurd h (by decide)
  have hl : s.search_term.data.length = 1 := h
  obtain ⟨c, hc⟩ := List.length_eq_one.mp hl
  have hdrop : (⟨s.search_term.data.dropLast⟩ : String) = "" := by
    rw [hc]
    rfl
  constructor
  · refine ⟨_, handle_key_backspace_ne s hne, ?_, ?_, ?_⟩ <;>
      rw [filter_items_of_empty _ (by simpa using hdrop)] <;> simpa using hdrop
  · refine ⟨_, handle_key_slash_eq s, ?_, ?_, ?_⟩ <;>
      rw [filter_items_of_empty _ rfl]

/-- Witness for C7 at the search state with the one-character term "a". -/
theorem empty_term_reverts_witness :
    devSearchState.search_term.length = 1 ∧
    ((∃ s1, handle_key devSearchState 263 = some s1 ∧ s1.search_term = "" ∧
        s1.filtered_items = [] ∧
        s1.current_view =
          (if devSearchState.current_category.isNone then View.main else View.category)) ∧
     (∃ s2, handle_key devSearchState 47 = some s2 ∧ s2.search_term = "" ∧
        s2.filtered_items = [] ∧
        s2.current_view =
          (if devSearchState.current_category.isNone then View.main else View.category))) :=
  ⟨by decide, empty_term_reverts devSearchState (by decide)⟩

/-! ## C5: character input, cursor movement, and quit -/

/-- C5 (counterexample): the claim says typing any printable ASCII character in
any view appends it to the search term.  The printable keys m (109) and
q (113) refute this: in the main view, m enters multi-select mode and leaves
the term empty, and q quits the session outright. -/
theorem reserved_key_does_not_append :
    (32 ≤ 109 ∧ 109 ≤ 126) ∧
    (handle_key initState 109).map MenuState.search_term = some "" ∧
    ("" : String) ≠ "m" ∧
    (32 ≤ 113 ∧ 113 ≤ 126) ∧
    handle_key initState 113 = none := by
  refine ⟨by decide, by decide, by decide, by decide, rfl⟩

/-- C5 (amended): typing a printable ASCII character that is not one of the
mnemonic keys consumed earlier in the dispatch (q Q space a A m M h H /)
appends it to the search term and re-filters, landing in the Search view, in
every view; Up and Down never change the view; and quit (q or Q) is accepted
from every state and ends the session unconditionally. -/
theorem printable_key_appends (s : MenuState) (key : Nat)
    (h1 : 32 ≤ key) (h2 : key ≤ 126) (h3 : ¬ key ∈ reservedKeys) :
    (∃ s1, handle_key s key = some s1 ∧
       s1.search_term = s.search_term.push (Char.ofNat key) ∧
       s1.current_view = View.search) ∧
    handle_key s 113 = none ∧
    handle_key s 81 = none ∧
    (∀ s2, handle_key s 259 = some s2 → s2.current_view = s.current_view) ∧
    (∀ s2, handle_key s 258 = some s2 → s2.current_view = s.current_view) := by
  refine ⟨?_, rfl, rfl, ?_, ?_⟩
  · simp only [reservedKeys, List.mem_cons, List.not_mem_nil, or_false] at h3
    push_neg at h3
    obtain ⟨n1, n2, n3, n4, n5, n6, n7, n8, n9, n10⟩ := h3
    rw [handle_key]
    simp only [KEY_DOWN, KEY_UP, KEY_LEFT, KEY_BACKSPACE, KEY_ENTER]
    repeat rw [if_neg (by omega)]
    rw [if_pos (And.intro h1 h2)]
    refine ⟨_, rfl, ?_, ?_⟩
    · rw [filter_items_search_term]
    · exact filter_items_view_of_ne _ (string_push_ne_empty s.search_term (Char.ofNat key))
  · intro s2 hs2
    rw [handle_key_up_eq] at hs2
    injection hs2 with hs2
    subst hs2
    split_ifs <;> rfl
  · intro s2 hs2
    rw [handle_key_down_eq] at hs2
    injection hs2 with hs2
    subst hs2
    split_ifs <;> rfl

/-- Witness for C5 (amended) at the key x (120) and a concrete state. -/
theorem printable_key_appends_witness :
    (32 ≤ 120 ∧ 120 ≤ 126 ∧ ¬ 120 ∈ reservedKeys) ∧
    ((∃ s1, handle_key devState 120 = some s1 ∧
        s1.search_term = devState.search_term.push (Char.ofNat 120) ∧
        s1.current_view = View.search) ∧
     handle_key devState 113 = none ∧
     handle_key devState 81 = none ∧
     (∀ s2, handle_key devState 259 = some s2 → s2.current_view = devState.current_view) ∧
     (∀ s2, handle_key devState 258 = some s2 → s2.current_view = devState.current_view)) :=
  ⟨by decide, printable_key_appends devState 120 (by decide) (by decide) (by decide)⟩

/-! ## C1: the multi-select snapshot taken on entry from the search view -/

/-- C1: evaluating the code at the failing input.  With the Dev category open
and the search term "a" active, the search view shows exactly the one matching
entry, yet pressing m snapshots the whole category [a, b] as the multi-select
candidates: the branch of `enter_multiselect_mode` that would copy the
filtered list tests `current_view == "search"` after `current_view` has
already been set to "multiselect", so it can never fire.  The first conjunct
shows the failing state is the one really reached by typing "a" in the Dev
category. -/
theorem multiselect_snapshot_ignores_search :
    filter_items { devState with search_term := "a" } = devSearchState ∧
    (handle_key devSearchState 109).map MenuState.multiselect_items =
      some [entryA, entryB] ∧
    get_current_items devSearchState = [Item.installerRow entryA] ∧
    ([entryA, entryB] : List Entry) ≠ [entryA] := by
  refine ⟨by decide, by decide, by decide, by decide⟩

/-! ## C8: toggling a selection index -/

/-- C8 (counterexample): `toggle_selection` has no range guard.  In a
multi-select state whose candidate snapshot has length 1, toggling index 5
changes the selection set, although the claim says an out-of-range index has
no effect. -/
theorem toggle_out_of_range_changes_selection :
    (toggle_selection netMultiState 5).selected_items ≠ netMultiState.selected_items ∧
    netMultiState.multiselect_items.length ≤ 5 := by
  refine ⟨by decide, by decide⟩

/-- C8 (amended): `toggle(index)` flips the membership of `index` in the
selection set for every index, including out-of-range ones (there is no range
guard); other indices are untouched; and an out-of-range index contributes no
path when the batch paths are collected at Enter, because that collection keeps
only indices below the snapshot length. -/
theorem toggle_selection_flips (s : MenuState) (idx : Nat)
    (hnd : s.selected_items.Nodup) :
    (idx ∈ (toggle_selection s idx).selected_items ↔ ¬ idx ∈ s.selected_items) ∧
    (∀ j, j ≠ idx →
      (j ∈ (toggle_selection s idx).selected_items ↔ j ∈ s.selected_items)) ∧
    (∀ p ∈ collect_selected_paths s, ∃ i, i < s.multiselect_items.length ∧
      i ∈ s.selected_items ∧ p = (s.multiselect_items.getD i default).path) := by
  refine ⟨?_, ?_, ?_⟩
  · by_cases hmem : idx ∈ s.selected_items
    · simp only [toggle_selection, if_pos hmem, hmem, not_true_eq_false, iff_false]
      exact hnd.not_mem_erase
    · simp [toggle_selection, hmem]
  · intro j hj
    by_cases hmem : idx ∈ s.selected_items
    · simp only [toggle_selection, if_pos hmem]
      exact List.mem_erase_of_ne hj
    · simp [toggle_selection, hmem, hj]
  · intro p hp
    simp only [collect_selected_paths, List.mem_map] at hp
    obtain ⟨i, hi, rfl⟩ := hp
    rw [List.mem_filter] at hi
    obtain ⟨hi1, hi2⟩ := hi
    exact ⟨i, of_decide_eq_true hi2,
      (sortBy_perm (fun a b => decide (a ≤ b)) s.selected_items).mem_iff.mp hi1, rfl⟩

/-- Witness for C8 (amended) at a concrete multi-select state. -/
theorem toggle_selection_flips_witness :
    netMultiState.selected_items.Nodup ∧
    ((0 ∈ (toggle_selection netMultiState 0).selected_items ↔
        ¬ 0 ∈ netMultiState.selected_items) ∧
     (∀ j, j ≠ 0 →
       (j ∈ (toggle_selection netMultiState 0).selected_items ↔
         j ∈ netMultiState.selected_items)) ∧
     (∀ p ∈ collect_selected_paths netMultiState, ∃ i,
        i < netMultiState.multiselect_items.length ∧
        i ∈ netMultiState.selected_items ∧
        p = (netMultiState.multiselect_items.getD i default).path)) :=
  ⟨by decide, toggle_selection_flips netMultiState 0 (by decide)⟩

/-! ## C3: the batch runner -/

theorem batch_loop_trace_prefix (exec : String → Outcome) (paths : List String) :
    (batch_loop exec paths).2.2 <+: paths := by
  induction paths with
  | nil => exact ⟨[], rfl⟩
  | cons p rest ih =>
    cases hx : exec p with
    | success =>
      obtain ⟨t, ht⟩ := ih
      refine ⟨t, ?_⟩
      simp [batch_loop, hx, ht]
    | failure code =>
      obtain ⟨t, ht⟩ := ih
      refine ⟨t, ?_⟩
      simp [batch_loop, hx, ht]
    | interrupted =>
      refine ⟨rest, ?_⟩
      simp [batch_loop, hx]

theorem batch_loop_succeeded (exec : String → Outcome) (paths : List String) :
    (batch_loop exec paths).1 =
      ((batch_loop exec paths).2.2.filter (fun q => (exec q).isSuccess)).length := by
  induction paths with
  | nil => simp [batch_loop]
  | cons p rest ih =>
    cases hx : exec p with
    | success => simp [batch_loop, hx, ih, Outcome.isSuccess]
    | failure code => simp [batch_loop, hx, ih, Outcome.isSuccess]
    | interrupted => simp [batch_loop, hx, Outcome.isSuccess]

theorem batch_loop_failed (exec : String → Outcome) (paths : List String) :
    (batch_loop exec paths).2.1 =
      ((batch_loop exec paths).2.2.filter (fun q => (exec q).isFailure)).length := by
  induction paths with
  | nil => simp [batch_loop]
  | cons p rest ih =>
    cases hx : exec p with
    | success => simp [batch_loop, hx, ih, Outcome.isFailure]
    | failure code => simp [batch_loop, hx, ih, Outcome.isFailure]
    | interrupted => simp [batch_loop, hx, Outcome.isFailure]

theorem batch_loop_trace_all (exec : String → Outcome) (paths : List String)
    (h : ∀ q ∈ paths, (exec q).isInterrupted = false) :
    (batch_loop exec paths).2.2 = paths := by
  induction paths with
  | nil => simp [batch_loop]
  | cons p rest ih =>
    have hp := h p (by simp)
    cases hx : exec p with
    | success =>
      simp only [batch_loop, hx]
      rw [ih (fun q hq => h q (by simp [hq]))]
    | failure code =>
      simp only [batch_loop, hx]
      rw [ih (fun q hq => h q (by simp [hq]))]
    | interrupted =>
      rw [hx] at hp
      simp [Outcome.isInterrupted] at hp

theorem batch_loop_stops_at_interrupt (exec : String → Outcome)
    (pre : List String) (p : String) (post : List String)
    (hpre : ∀ q ∈ pre, (exec q).isInterrupted = false)
    (hp : (exec p).isInterrupted = true) :
    (batch_loop exec (pre ++ p :: post)).2.2 = pre ++ [p] := by
  induction pre with
  | nil =>
    cases hx : exec p with
    | success => rw [hx] at hp; simp [Outcome.isInterrupted] at hp
    | failure code => rw [hx] at hp; simp [Outcome.isInterrupted] at hp
    | interrupted => simp [batch_loop, hx]
  | cons q pre ih =>
    have hq := hpre q (by simp)
    cases hx : exec q with
    | success =>
      simp only [List.cons_append, batch_loop, hx]
      exact congrArg (fun l => q :: l) (ih (fun r hr => hpre r (by simp [hr])))
    | failure code =>
      simp only [List.cons_append, batch_loop, hx]
      exact congrArg (fun l => q :: l) (ih (fun r hr => hpre r (by simp [hr])))
    | interrupted =>
      rw [hx] at hq
      simp [Outcome.isInterrupted] at hq

/-- C3: `run_batch_installers` invokes the given paths in order (the invocation
trace is a prefix of the queue); in the printed summary, `succeeded` counts the
zero-exit runs, `failed` counts the non-zero-exit runs, and `total` is the
number of paths given; when no run is interrupted every path is invoked, and
an interruption aborts the remaining queue immediately after the interrupted
invocation while the completed outcomes are kept. -/
theorem run_batch_summary (exec : String → Outcome) (paths : List String) :
    (run_batch_installers exec paths).1.total = paths.length ∧
    (run_batch_installers exec paths).2 <+: paths ∧
    (run_batch_installers exec paths).1.succeeded =
      ((run_batch_installers exec paths).2.filter (fun q => (exec q).isSuccess)).length ∧
    (run_batch_installers exec paths).1.failed =
      ((run_batch_installers exec paths).2.filter (fun q => (exec q).isFailure)).length ∧
    ((∀ q ∈ paths, (exec q).isInterrupted = false) →
      (run_batch_installers exec paths).2 = paths) ∧
    (∀ pre p post, paths = pre ++ p :: post →
      (∀ q ∈ pre, (exec q).isInterrupted = false) →
      (exec p).isInterrupted = true →
      (run_batch_installers exec paths).2 = pre ++ [p]) := by
  by_cases hnil : paths = []
  · subst hnil
    refine ⟨rfl, ⟨[], rfl⟩, rfl, rfl, fun _ => rfl, ?_⟩
    intro pre p post heq h1 h2
    simp at heq
  · have hb : run_batch_installers exec paths =
        ({ succeeded := (batch_loop exec paths).1,
           failed := (batch_loop exec paths).2.1,
           total := paths.length }, (batch_loop exec paths).2.2) := by
      simp only [run_batch_installers]
      rw [if_neg hnil]
    rw [hb]
    refine ⟨rfl, batch_loop_trace_prefix exec paths, batch_loop_succeeded exec paths,
      batch_loop_failed exec paths, batch_loop_trace_all exec paths, ?_⟩
    intro pre p post heq h1 h2
    subst heq
    exact batch_loop_stops_at_interrupt exec pre p post h1 h2

/-- Witness for C3: a batch of one with a zero-exit script gives the summary
1/0/1 (the spec scenario); with the three-path queue a-b-c where b is
interrupted, exactly a and b are invoked and the summary is 1/0/3. -/
theorem run_batch_summary_witness :
    (run_batch_installers execDemo ["setup_a.sh"]).1 =
      { succeeded := 1, failed := 0, total := 1 } ∧
    (run_batch_installers execDemo ["setup_a.sh", "setup_b.sh", "setup_c.sh"]).2 =
      ["setup_a.sh"] ++ ["setup_b.sh"] ∧
    (run_batch_installers execDemo ["setup_a.sh", "setup_b.sh", "setup_c.sh"]).1.total = 3 := by
  have h1 := run_batch_summary execDemo ["setup_a.sh"]
  have h3 := run_batch_summary execDemo ["setup_a.sh", "setup_b.sh", "setup_c.sh"]
  refine ⟨?_, ?_, ?_⟩
  · have ht := h1.1
    have htr := h1.2.2.2.2.1 (by decide)
    have hs := h1.2.2.1
    have hf := h1.2.2.2.1
    rw [htr] at hs hf
    have hs2 : (run_batch_installers execDemo ["setup_a.sh"]).1.succeeded = 1 := by
      rw [hs]; decide
    have hf2 : (run_batch_installers execDemo ["setup_a.sh"]).1.failed = 0 := by
      rw [hf]; decide
    cases hsum : (run_batch_installers execDemo ["setup_a.sh"]).1 with
    | mk a b c =>
      rw [hsum] at hs2 hf2 ht
      simp only at hs2 hf2 ht
      rw [hs2, hf2, ht]
      rfl
  · exact h3.2.2.2.2.2 ["setup_a.sh"] "setup_b.sh" ["setup_c.sh"] rfl (by decide) (by decide)
  · exact h3.1

/-! ## C2: the header scan -/

theorem prefix_trans_chars {p q l : List Char} (h1 : p <+: q) (h2 : q <+: l) :
    p <+: l := by
  obtain ⟨t1, rfl⟩ := h1
  obtain ⟨t2, rfl⟩ := h2
  exact ⟨t1 ++ t2, by rw [List.append_assoc]⟩

theorem pyStartsWith_of_longer {m1 m2 : String} (h12 : m1.data <+: m2.data)
    (line : String) (h : pyStartsWith m2 line = true) :
    pyStartsWith m1 line = true := by
  rw [pyStartsWith, List.isPrefixOf_iff_prefix] at h ⊢
  exact prefix_trans_chars h12 h

theorem desc_line_is_comment (line : String)
    (h : pyStartsWith "# Description:" line = true) :
    pyStartsWith "#" line = true :=
  pyStartsWith_of_longer (by decide) line h

theorem cat_line_is_comment (line : String)
    (h : pyStartsWith "# Category:" line = true) :
    pyStartsWith "#" line = true :=
  pyStartsWith_of_longer (by decide) line h

theorem desc_line_not_cat (line : String)
    (h : pyStartsWith "# Description:" line = true) :
    ¬ pyStartsWith "# Category:" line = true := by
  intro hc
  rw [pyStartsWith, List.isPrefixOf_iff_prefix] at h hc
  have := List.prefix_of_prefix_length_le hc h (by decide)
  exact absurd this (by decide)

theorem headerBlock_cons_of_comment (line : String) (rest : List String)
    (h : ¬ (pyStrip line ≠ "" ∧ ¬ pyStartsWith "#" line)) :
    headerBlock (line :: rest) = line :: headerBlock rest := by
  rw [headerBlock, List.takeWhile_cons]
  rw [if_pos ?_]
  · rfl
  · push_neg at h
    by_cases hh : pyStartsWith "#" line = true
    · simp [hh]
    · have hb : pyStrip line = "" := by
        by_contra hne
        exact hh (h hne)
      simp [hb]

theorem headerBlock_cons_of_stop (line : String) (rest : List String)
    (h : pyStrip line ≠ "" ∧ ¬ pyStartsWith "#" line) :
    headerBlock (line :: rest) = [] := by
  rw [headerBlock, List.takeWhile_cons]
  rw [if_neg ?_]
  intro hcon
  rcases Bool.or_eq_true_iff.mp hcon with hh | hb
  · exact h.2 hh
  · exact h.1 (by simpa using hb)

theorem parse_header_cons_desc (line : String) (rest : List String) (d c : String)
    (hd : pyStartsWith "# Description:" line = true) :
    parse_header (line :: rest) d c =
      parse_header rest (pyStrip (pyReplaceDel line "# Description:")) c := by
  simp only [parse_header]
  rw [if_pos hd]

theorem parse_header_cons_cat (line : String) (rest : List String) (d c : String)
    (hd : ¬ pyStartsWith "# Description:" line = true)
    (hc : pyStartsWith "# Category:" line = true) :
    parse_header (line :: rest) d c =
      parse_header rest d (pyStrip (pyReplaceDel line "# Category:")) := by
  simp only [parse_header]
  rw [if_neg hd, if_pos hc]

theorem parse_header_cons_stop (line : String) (rest : List String) (d c : String)
    (hd : ¬ pyStartsWith "# Description:" line = true)
    (hc : ¬ pyStartsWith "# Category:" line = true)
    (hs : pyStrip line ≠ "" ∧ ¬ pyStartsWith "#" line) :
    parse_header (line :: rest) d c = (d, c) := by
  simp only [parse_header]
  rw [if_neg hd, if_neg hc, if_pos hs]

theorem parse_header_cons_skip (line : String) (rest : List String) (d c : String)
    (hd : ¬ pyStartsWith "# Description:" line = true)
    (hc : ¬ pyStartsWith "# Category:" line = true)
    (hs : ¬ (pyStrip line ≠ "" ∧ ¬ pyStartsWith "#" line)) :
    parse_header (line :: rest) d c = parse_header rest d c := by
  simp only [parse_header]
  rw [if_neg hd, if_neg hc, if_neg hs]

theorem lastDirective_cons_hit (marker line : String) (rest : List String)
    (h : pyStartsWith marker line = true) :
    lastDirective marker (line :: rest) =
      (lastDirective marker rest).orElse
        (fun _ => some (pyStrip (pyReplaceDel line marker))) := by
  simp only [lastDirective]
  rw [if_pos h]

theorem lastDirective_cons_stop (marker line : String) (rest : List String)
    (h : ¬ pyStartsWith marker line = true)
    (hs : pyStrip line ≠ "" ∧ ¬ pyStartsWith "#" line) :
    lastDirective marker (line :: rest) = none := by
  simp only [lastDirective]
  rw [if_neg h, if_pos hs]

theorem lastDirective_cons_skip (marker line : String) (rest : List String)
    (h : ¬ pyStartsWith marker line = true)
    (hs : ¬ (pyStrip line ≠ "" ∧ ¬ pyStartsWith "#" line)) :
    lastDirective marker (line :: rest) = lastDirective marker rest := by
  simp only [lastDirective]
  rw [if_neg h, if_neg hs]

theorem parse_header_eq_lastDirective (lines : List String) (d c : String) :
    parse_header lines d c =
      ((lastDirective "# Description:" lines).getD d,
       (lastDirective "# Category:" lines).getD c) := by
  induction lines generalizing d c with
  | nil => rfl
  | cons line rest ih =>
    by_cases hd : pyStartsWith "# Description:" line = true
    · have hc := desc_line_not_cat line hd
      have hcomment := desc_line_is_comment line hd
      have hs : ¬ (pyStrip line ≠ "" ∧ ¬ pyStartsWith "#" line) := by
        intro hcon
        exact hcon.2 hcomment
      rw [parse_header_cons_desc line rest d c hd, ih,
          lastDirective_cons_hit _ line rest hd,
          lastDirective_cons_skip _ line rest hc hs]
      cases hl : lastDirective "# Description:" rest <;>
        simp [Option.orElse, hl]
    · by_cases hc : pyStartsWith "# Category:" line = true
      · have hcomment := cat_line_is_comment line hc
        have hs : ¬ (pyStrip line ≠ "" ∧ ¬ pyStartsWith "#" line) := by
          intro hcon
          exact hcon.2 hcomment
        rw [parse_header_cons_cat line rest d c hd hc, ih,
            lastDirective_cons_hit _ line rest hc,
            lastDirective_cons_skip _ line rest hd hs]
        cases hl : lastDirective "# Category:" rest <;>
          simp [Option.orElse, hl]
      · by_cases hs : pyStrip line ≠ "" ∧ ¬ pyStartsWith "#" line
        · rw [parse_header_cons_stop line rest d c hd hc hs,
              lastDirective_cons_stop _ line rest hd hs,
              lastDirective_cons_stop _ line rest hc hs]
          rfl
        · rw [parse_header_cons_skip line rest d c hd hc hs,
              lastDirective_cons_skip _ line rest hd hs,
              lastDirective_cons_skip _ line rest hc hs, ih]

theorem parse_header_headerBlock (lines : List String) (d c : String) :
    parse_header lines d c = parse_header (headerBlock lines) d c := by
  induction lines generalizing d c with
  | nil => rfl
  | cons line rest ih =>
    by_cases hs : pyStrip line ≠ "" ∧ ¬ pyStartsWith "#" line
    · have hd : ¬ pyStartsWith "# Description:" line = true := by
        intro h
        exact hs.2 (desc_line_is_comment line h)
      have hc : ¬ pyStartsWith "# Category:" line = true := by
        intro h
        exact hs.2 (cat_line_is_comment line h)
      rw [parse_header_cons_stop line rest d c hd hc hs,
          headerBlock_cons_of_stop line rest hs]
      rfl
    · rw [headerBlock_cons_of_comment line rest hs]
      by_cases hd : pyStartsWith "# Description:" line = true
      · rw [parse_header_cons_desc line rest d c hd,
            parse_header_cons_desc line (headerBlock rest) d c hd, ih]
      · by_cases hc : pyStartsWith "# Category:" line = true
        · rw [parse_header_cons_cat line rest d c hd hc,
              parse_header_cons_cat line (headerBlock rest) d c hd hc, ih]
        · rw [parse_header_cons_skip line rest d c hd hc hs,
              parse_header_cons_skip line (headerBlock rest) d c hd hc hs, ih]

/-- C2 (counterexample): when a directive repeats in the header, the claim says
the first occurrence determines the field, but the scan overwrites on every
match, so discovery records the value of the second (last) occurrence. -/
theorem repeated_directive_last_wins :
    (discover_installers
        [("setup_foo.sh", ["# Description: first", "# Description: second"])]).map
      Entry.description = ["second"] ∧
    firstDirective "# Description:"
      ["# Description: first", "# Description: second"] = some "first" ∧
    ("second" : String) ≠ "first" := by
  refine ⟨by decide, by decide, by decide⟩

/-- C2 (amended): during discovery only the leading comment block is scanned
(the scan result only depends on the lines up to the first non-comment,
non-blank line), the two directives are recognized, and when a directive
occurs more than once in the header the last occurrence determines the field
value; each field defaults when its directive is absent.  Stated both for the
raw scan and for the entry built from a file. -/
theorem header_scan_properties (lines : List String) (d c fname : String) :
    parse_header lines d c = parse_header (headerBlock lines) d c ∧
    (parse_header lines d c).1 = (lastDirective "# Description:" lines).getD d ∧
    (parse_header lines d c).2 = (lastDirective "# Category:" lines).getD c ∧
    (mk_installer fname lines).description =
      (lastDirective "# Description:" lines).getD "No description" ∧
    (mk_installer fname lines).category =
      (lastDirective "# Category:" lines).getD "Utilities" := by
  refine ⟨parse_header_headerBlock lines d c, ?_, ?_, ?_, ?_⟩
  · rw [parse_header_eq_lastDirective]
  · rw [parse_header_eq_lastDirective]
  · show (parse_header lines "No description" "Utilities").1 = _
    rw [parse_header_eq_lastDirective]
  · show (parse_header lines "No description" "Utilities").2 = _
    rw [parse_header_eq_lastDirective]

/-! ## C6: entry names and metadata defaults -/

theorem removeAllAux_fuel_irrelevant (pat : List Char) :
    ∀ (f1 : Nat), ∀ (f2 : Nat) (l : List Char), l.length ≤ f1 → l.length ≤ f2 →
      removeAllAux pat f1 l = removeAllAux pat f2 l := by
  intro f1
  induction f1 with
  | zero =>
    intro f2 l h1 h2
    cases l with
    | nil => cases f2 <;> rfl
    | cons c rest => simp at h1
  | succ f1 ih =>
    intro f2 l h1 h2
    cases l with
    | nil => cases f2 <;> rfl
    | cons c rest =>
      cases f2 with
      | zero => simp at h2
      | succ f2 =>
        simp only [removeAllAux]
        split
        · next hcond =>
          have hplen : 1 ≤ pat.length := by
            cases pat with
            | nil => simp at hcond
            | cons x xs => simp
          apply ih
          · simp only [List.length_drop, List.length_cons]
            simp only [List.length_cons] at h1
            omega
          · simp only [List.length_drop, List.length_cons]
            simp only [List.length_cons] at h2
            omega
        · exact congrArg (fun x => c :: x)
            (ih f2 rest (by simp only [List.length_cons] at h1; omega)
              (by simp only [List.length_cons] at h2; omega))

theorem removeAllAux_no_occurrence (pat : List Char) :
    ∀ (fuel : Nat) (l : List Char), l.length ≤ fuel → ¬ pat <:+: l →
      removeAllAux pat fuel l = l := by
  intro fuel
  induction fuel with
  | zero =>
    intro l h1 h2
    cases l with
    | nil => rfl
    | cons c rest => simp at h1
  | succ fuel ih =>
    intro l h1 h2
    cases l with
    | nil => rfl
    | cons c rest =>
      have hnp : ¬ pat.isPrefixOf (c :: rest) = true := by
        intro hp
        obtain ⟨t, ht⟩ := List.isPrefixOf_iff_prefix.mp hp
        exact h2 ⟨[], t, by simpa using ht⟩
      have hrest : ¬ pat <:+: rest := by
        intro hinf
        obtain ⟨s, t, hst⟩ := hinf
        exact h2 ⟨c :: s, t, by simp [hst]⟩
      simp only [removeAllAux]
      rw [if_neg (by simp [hnp])]
      rw [ih rest (by simp only [List.length_cons] at h1; omega) hrest]

theorem removeAll_of_no_occurrence (pat l : List Char)
    (h : ¬ pat <:+: l) : removeAll pat l = l :=
  removeAllAux_no_occurrence pat l.length l le_rfl h

theorem removeAll_strip_leading (pat r : List Char) (hpat : pat ≠ []) :
    removeAll pat (pat ++ r) = removeAll pat r := by
  cases pat with
  | nil => exact absurd rfl hpat
  | cons pc pt =>
    show removeAllAux (pc :: pt) ((pc :: pt) ++ r).length ((pc :: pt) ++ r) =
      removeAllAux (pc :: pt) r.length r
    have hcond : ((pc :: pt).isPrefixOf (pc :: (pt ++ r)) && !(pc :: pt).isEmpty) = true := by
      have hpre : (pc :: pt) <+: pc :: (pt ++ r) := ⟨r, by simp⟩
      simp [List.isPrefixOf_iff_prefix.mpr hpre]
    simp only [List.cons_append, List.length_cons]
    simp only [removeAllAux]
    rw [if_pos hcond]
    have hdrop : List.drop (pc :: pt).length (pc :: (pt ++ r)) = r := by
      simp only [List.length_cons, List.drop_succ_cons]
      exact List.drop_left pt r
    rw [hdrop]
    exact removeAllAux_fuel_irrelevant (pc :: pt) (pt ++ r).length r.length r
      (by simp only [List.length_append]; omega) le_rfl

/-- C6 (counterexample): the source derives the entry name with
`stem.replace("setup_", "")`, which removes every occurrence of the substring,
not just the leading prefix.  The file `setup_setup_foo.sh` has stem
`setup_setup_foo`; stripping the prefix would give `setup_foo`, but discovery
records `foo`. -/
theorem name_strips_every_occurrence :
    (discover_installers [("setup_setup_foo.sh", [])]).map Entry.name = ["foo"] ∧
    stemOf "setup_setup_foo.sh" = "setup_setup_foo" ∧
    specStripPrefix "setup_setup_foo" = "setup_foo" ∧
    ("foo" : String) ≠ "setup_foo" := by
  refine ⟨by decide, by decide, by decide, by decide⟩

/-- C6 (amended): for every discovered entry, `name` equals the stem with every
occurrence of the substring `setup_` removed; when the stem is `setup_`
followed by a remainder that contains no further occurrence, this is exactly
the stem with the fixed prefix removed.  `description` and `category` default
to "No description" and "Utilities" when the corresponding directive is absent
from the scanned header.  Every discovered entry arises as `mk_installer` of
one of the directory's files. -/
theorem discovered_name_and_defaults (fname rest : String) (lines : List String)
    (hstem : stemOf fname = "setup_" ++ rest)
    (hno : ¬ "setup_".data <:+: rest.data) :
    (mk_installer fname lines).name = rest ∧
    (lastDirective "# Description:" lines = none →
      (mk_installer fname lines).description = "No description") ∧
    (lastDirective "# Category:" lines = none →
      (mk_installer fname lines).category = "Utilities") ∧
    (∀ files e, e ∈ discover_installers files →
      ∃ f ∈ files, e = mk_installer f.1 f.2) := by
  refine ⟨?_, ?_, ?_, ?_⟩
  · show pyReplaceDel (stemOf fname) "setup_" = rest
    rw [hstem]
    show (⟨removeAll ("setup_" : String).data ("setup_" ++ rest).data⟩ : String) = rest
    rw [String.data_append, removeAll_strip_leading _ _ (by decide),
        removeAll_of_no_occurrence _ _ hno]
  · intro h
    show (parse_header lines "No description" "Utilities").1 = _
    rw [parse_header_eq_lastDirective, h]
    rfl
  · intro h
    show (parse_header lines "No description" "Utilities").2 = _
    rw [parse_header_eq_lastDirective, h]
    rfl
  · intro files e he
    simp only [discover_installers, List.mem_map] at he
    obtain ⟨f, hf, rfl⟩ := he
    rw [List.mem_filter] at hf
    have hf2 := (sortBy_perm _ _).mem_iff.mp hf.1
    rw [List.mem_filter] at hf2
    exact ⟨f, hf2.1, rfl⟩

/-- Witness for C6 (amended) at a concrete file. -/
theorem discovered_name_and_defaults_witness :
    stemOf "setup_vim.sh" = "setup_" ++ "vim" ∧
    ¬ ("setup_" : String).data <:+: ("vim" : String).data ∧
    ((mk_installer "setup_vim.sh" []).name = "vim" ∧
     (lastDirective "# Description:" [] = none →
       (mk_installer "setup_vim.sh" []).description = "No description") ∧
     (lastDirective "# Category:" [] = none →
       (mk_installer "setup_vim.sh" []).category = "Utilities") ∧
     (∀ files e, e ∈ discover_installers files →
       ∃ f ∈ files, e = mk_installer f.1 f.2)) :=
  ⟨by decide, by decide,
    discovered_name_and_defaults "setup_vim.sh" "vim" [] (by decide) (by decide)⟩

/-! ## C9: category ordering and independence from file iteration order -/

theorem strLe_trans (a b c : String) (h1 : strLe a b = true) (h2 : strLe b c = true) :
    strLe a c = true := charsLe_trans _ _ _ h1 h2

theorem strLe_total (a b : String) : strLe a b = true ∨ strLe b a = true :=
  charsLe_total _ _

theorem strLe_antisymm (a b : String) (h1 : strLe a b = true)
    (h2 : strLe b a = true) : a = b := by
  have hd := charsLe_antisymm a.data b.data h1 h2
  cases a with
  | mk da =>
    cases b with
    | mk db => exact congrArg String.mk hd

theorem keys_foldl_nodup (l : List Entry) :
    ∀ acc : List String, acc.Nodup →
      (l.foldl (fun acc e => if e.category ∈ acc then acc else acc ++ [e.category])
        acc).Nodup := by
  induction l with
  | nil => intro acc h; exact h
  | cons e t ih =>
    intro acc h
    simp only [List.foldl_cons]
    by_cases hc : e.category ∈ acc
    · rw [if_pos hc]
      exact ih acc h
    · rw [if_neg hc]
      refine ih _ ?_
      rw [List.nodup_append]
      refine ⟨h, List.nodup_singleton _, ?_⟩
      intro x hx hx2
      rw [List.mem_singleton] at hx2
      subst hx2
      exact hc hx

theorem categoryKeys_nodup (l : List Entry) : (categoryKeys l).Nodup :=
  keys_foldl_nodup l [] List.nodup_nil

theorem categoryPairs_fst (l : List Entry) :
    (categoryPairs l).map Prod.fst = categoryKeys l := by
  rw [categoryPairs, List.map_map]
  exact List.map_id _

theorem organize_keys_pairwise (l : List Entry) :
    ((organize_by_category l).map Prod.fst).Pairwise (fun a b => strLe a b = true) := by
  rw [List.pairwise_map]
  exact sortBy_pairwise (fun (p : String × List Entry) q => strLe p.1 q.1)
    (fun a b c h1 h2 => strLe_trans _ _ _ h1 h2)
    (fun a b => strLe_total _ _) _

theorem organize_keys_nodup (l : List Entry) :
    ((organize_by_category l).map Prod.fst).Nodup := by
  have hperm := (sortBy_perm (fun (p : String × List Entry) q => strLe p.1 q.1)
    (categoryPairs l)).map Prod.fst
  exact hperm.nodup_iff.mpr (by rw [categoryPairs_fst]; exact categoryKeys_nodup l)

theorem organize_buckets_sorted (l : List Entry) :
    ∀ pr ∈ organize_by_category l,
      pr.2.Pairwise (fun a b => strLe a.name b.name = true) := by
  intro pr hpr
  have hmem : pr ∈ categoryPairs l := (sortBy_perm _ _).mem_iff.mp hpr
  simp only [categoryPairs, List.mem_map] at hmem
  obtain ⟨c, hc, rfl⟩ := hmem
  exact sortBy_pairwise (fun (a : Entry) b => strLe a.name b.name)
    (fun a b c h1 h2 => strLe_trans _ _ _ h1 h2)
    (fun a b => strLe_total _ _) _

theorem discover_perm_invariant (files files' : List (String × List String))
    (hperm : files.Perm files')
    (hnd : (files.map Prod.fst).Nodup) :
    discover_installers files = discover_installers files' := by
  have h1 : (files.filter (fun f => globMatch f.1)).Perm
      (files'.filter (fun f => globMatch f.1)) := hperm.filter _
  have hs1s2 : (sortBy (fun f g => strLe f.1 g.1) (files.filter (fun f => globMatch f.1))).Perm
      (sortBy (fun f g => strLe f.1 g.1) (files'.filter (fun f => globMatch f.1))) :=
    ((sortBy_perm _ _).trans h1).trans (sortBy_perm _ _).symm
  have hp1 := sortBy_pairwise (fun (f g : String × List String) => strLe f.1 g.1)
    (fun a b c h1 h2 => strLe_trans _ _ _ h1 h2) (fun a b => strLe_total _ _)
    (files.filter (fun f => globMatch f.1))
  have hp2 := sortBy_pairwise (fun (f g : String × List String) => strLe f.1 g.1)
    (fun a b c h1 h2 => strLe_trans _ _ _ h1 h2) (fun a b => strLe_total _ _)
    (files'.filter (fun f => globMatch f.1))
  have hnd' : (files'.map Prod.fst).Nodup := ((hperm.map Prod.fst).nodup_iff).mp hnd
  have hnd1 : ((files.filter (fun f => globMatch f.1)).map Prod.fst).Nodup :=
    List.Nodup.sublist ((List.filter_sublist files).map Prod.fst) hnd
  have hnd2 : ((files'.filter (fun f => globMatch f.1)).map Prod.fst).Nodup :=
    List.Nodup.sublist ((List.filter_sublist files').map Prod.fst) hnd'
  have hnds1 : ((sortBy (fun f g => strLe f.1 g.1)
      (files.filter (fun f => globMatch f.1))).map Prod.fst).Nodup :=
    (((sortBy_perm _ _).map Prod.fst).nodup_iff).mpr hnd1
  have hnds2 : ((sortBy (fun f g => strLe f.1 g.1)
      (files'.filter (fun f => globMatch f.1))).map Prod.fst).Nodup :=
    (((sortBy_perm _ _).map Prod.fst).nodup_iff).mpr hnd2
  have hne1 : (sortBy (fun f g => strLe f.1 g.1)
      (files.filter (fun f => globMatch f.1))).Pairwise (fun a b => a.1 ≠ b.1) :=
    List.pairwise_map.mp hnds1
  have hne2 : (sortBy (fun f g => strLe f.1 g.1)
      (files'.filter (fun f => globMatch f.1))).Pairwise (fun a b => a.1 ≠ b.1) :=
    List.pairwise_map.mp hnds2
  haveI : IsAntisymm (String × List String)
      (fun a b => strLe a.1 b.1 = true ∧ a.1 ≠ b.1) :=
    ⟨fun a b ha hb => absurd (strLe_antisymm _ _ ha.1 hb.1) ha.2⟩
  have heq : sortBy (fun f g => strLe f.1 g.1) (files.filter (fun f => globMatch f.1)) =
      sortBy (fun f g => strLe f.1 g.1) (files'.filter (fun f => globMatch f.1)) :=
    List.eq_of_perm_of_sorted hs1s2 (hp1.and hne1) (hp2.and hne2)
  simp only [discover_installers]
  rw [heq]

/-- C9: discovery and the category structure built from it do not depend on the
iteration order of the directory (for directories whose file names are
distinct, as file names in one directory are); the category pairs are listed
in strictly ascending alphabetical order of category name, and the entries
inside each category are in ascending alphabetical order of entry name. -/
theorem catalog_order_properties (files files' : List (String × List String))
    (hperm : files.Perm files')
    (hnd : (files.map Prod.fst).Nodup) :
    discover_installers files = discover_installers files' ∧
    organize_by_category (discover_installers files) =
      organize_by_category (discover_installers files') ∧
    ((organize_by_category (discover_installers files)).map Prod.fst).Pairwise
      (fun a b => strLe a b = true) ∧
    ((organize_by_category (discover_installers files)).map Prod.fst).Nodup ∧
    (∀ pr ∈ organize_by_category (discover_installers files),
      pr.2.Pairwise (fun a b => strLe a.name b.name = true)) := by
  have hd := discover_perm_invariant files files' hperm hnd
  exact ⟨hd, by rw [hd], organize_keys_pairwise _, organize_keys_nodup _,
    organize_buckets_sorted _⟩

/-- Witness for C9: the same three-script directory in two iteration orders. -/
theorem catalog_order_properties_witness :
    demoFiles.Perm demoFilesAlt ∧
    (demoFiles.map Prod.fst).Nodup ∧
    (discover_installers demoFiles = discover_installers demoFilesAlt ∧
     organize_by_category (discover_installers demoFiles) =
       organize_by_category (discover_installers demoFilesAlt) ∧
     ((organize_by_category (discover_installers demoFiles)).map Prod.fst).Pairwise
       (fun a b => strLe a b = true) ∧
     ((organize_by_category (discover_installers demoFiles)).map Prod.fst).Nodup ∧
     (∀ pr ∈ organize_by_category (discover_installers demoFiles),
       pr.2.Pairwise (fun a b => strLe a.name b.name = true))) :=
  ⟨by decide, by decide,
    catalog_order_properties demoFiles demoFilesAlt (by decide) (by decide)⟩
